import Mathlib

/-!
Verification of the text-animation engine, OBJ mesh importer and glyph
line-wrap logic of the stream-start-screen program.

Modelling conventions:
* Rust `String` values are modelled as `List Char` (Lean `Char` is a Unicode
  scalar value, matching Rust `char`).  `String::len` (a byte count) is
  modelled by `byteLen`, which sums UTF-8 widths; `chars().count()` is
  `List.length`.
* `f32` times and durations are idealised as real numbers; `x as usize` on a
  non-negative float is `Nat.floor`.
* Fallible operations return `Option` (`none` models a Rust panic, such as
  `String::truncate` on a non-boundary index, `usize` subtraction overflow in
  a debug build, `Option::expect`, or out-of-bounds slice indexing).
* The OBJ importer returns `RRes`, distinguishing `ok`, a returned
  `ObjParseError`, and a panic.
-/

/-- Model of `str::len` for a string represented as its list of scalar
values: the total number of UTF-8 bytes. -/
def byteLen (s : List Char) : Nat :=
  (s.map Char.utf8Size).sum

/-- Helper for `strTruncate`: keep exactly `n` bytes worth of leading
characters, failing (panicking) when `n` falls inside a character. -/
def takeBytes : List Char → Nat → Option (List Char)
  | _, 0 => some []
  | [], _ + 1 => none
  | c :: rest, n + 1 =>
    if c.utf8Size ≤ n + 1 then
      (takeBytes rest (n + 1 - c.utf8Size)).map (fun t => c :: t)
    else
      none

/-- Model of `String::truncate(new_len)`: no effect when `new_len` is at
least the byte length, panic (`none`) when `new_len` is not a character
boundary, otherwise keep the first `new_len` bytes. -/
def strTruncate (s : List Char) (n : Nat) : Option (List Char) :=
  if byteLen s ≤ n then some s else takeBytes s n

/-- Model of `ease::in_sine` from `src/ease.rs`:
`1.0 - f32::cos((val * PI) / 2.0)`. -/
noncomputable def inSine (val : Real) : Real :=
  1 - Real.cos ((val * Real.pi) / 2)

/-- Model of `f32::clamp(lo, hi)` (for non-NaN reals). -/
noncomputable def fclamp (x lo hi : Real) : Real :=
  min (max x lo) hi

/-- The queued animation request type `AnimationReq` from
`src/animation.rs`. -/
inductive AnimationReq where
  | delete (desiredLen : Nat) (animationDuration : Real)
  | wait (waitTime : Real)
  | append (additionalChars : List Char) (animationDuration : Real)

/-- The `DeleteOverTime` animation state from `src/animation.rs`.  Fields
mirror the source: `start_len` and `desired_len` are `usize` values measured
by the code in bytes resp. supplied by the request. -/
structure DeleteOverTime where
  s : List Char
  start_len : Nat
  desired_len : Nat
  animationStart : Real
  animationDuration : Real

/-- Model of `DeleteOverTime::time_factor`. -/
noncomputable def DeleteOverTime.timeFactor (d : DeleteOverTime) (now : Real) : Real :=
  fclamp ((now - d.animationStart) / d.animationDuration) 0 1

/-- Model of `DeleteOverTime::update`.  The `usize` subtraction
`start_len - desired_len` is overflow-checked (a debug-build panic is
`none`), and `String::truncate` may panic via `strTruncate`. -/
noncomputable def DeleteOverTime.update (d : DeleteOverTime) (now : Real) :
    Option DeleteOverTime :=
  if d.desired_len ≤ d.start_len then
    let timeFactor := d.timeFactor now
    let deleteFactor := inSine timeFactor
    let deletedChars := Nat.floor (((d.start_len - d.desired_len : Nat) : Real) * deleteFactor)
    let desiredCurrentLen := d.start_len - deletedChars
    (strTruncate d.s desiredCurrentLen).map (fun t => { d with s := t })
  else
    none

/-- Model of `DeleteOverTime::finished`. -/
def DeleteOverTime.finished (d : DeleteOverTime) (now : Real) : Prop :=
  d.timeFactor now ≥ 1

/-- Model of `DeleteOverTime::into_finished_string`: update to the exact
end instant, then extract the text. -/
noncomputable def DeleteOverTime.intoFinishedString (d : DeleteOverTime) :
    Option (List Char) :=
  (d.update (d.animationStart + d.animationDuration)).map (fun d2 => d2.s)

/-- The `AppendOverTime` animation state from `src/animation.rs`.  The
`VecDeque<char>` of pending characters is a front-consumed list. -/
structure AppendOverTime where
  s : List Char
  start_len : Nat
  additionalCharacters : List Char
  animationStart : Real
  animationDuration : Real

/-- Model of `AppendOverTime::time_factor`. -/
noncomputable def AppendOverTime.timeFactor (a : AppendOverTime) (now : Real) : Real :=
  fclamp ((now - a.animationStart) / a.animationDuration) 0 1

/-- The `while self.s.len() < desired_len` loop of
`AppendOverTime::update`: pop pending characters onto the text until its
byte length reaches `desired`; popping an empty queue is the
`expect("Attempted to pop too many")` panic. -/
def appendLoop : List Char → List Char → Nat → Option (List Char × List Char)
  | s, pending, desired =>
    if byteLen s < desired then
      match pending with
      | [] => none
      | c :: rest => appendLoop (s ++ [c]) rest desired
    else
      some (s, pending)
termination_by _ pending _ => pending.length

/-- Model of `AppendOverTime::update`.  `current_len` counts characters
(`chars().count()`), while `start_len` and the loop bound are byte based,
exactly as in the source; the `usize` subtraction `final_len - start_len`
is overflow-checked (debug-build panic is `none`). -/
noncomputable def AppendOverTime.update (a : AppendOverTime) (now : Real) :
    Option AppendOverTime :=
  let timeFactor := a.timeFactor now
  let appendFactor := inSine timeFactor
  let currentLen := a.s.length
  let finalLen := currentLen + a.additionalCharacters.length
  if a.start_len ≤ finalLen then
    let desiredLen := Nat.floor (((finalLen - a.start_len : Nat) : Real) * appendFactor) + a.start_len
    (appendLoop a.s a.additionalCharacters desiredLen).map
      (fun p => { a with s := p.1, additionalCharacters := p.2 })
  else
    none

/-- Model of `AppendOverTime::finished`. -/
def AppendOverTime.finished (a : AppendOverTime) (now : Real) : Prop :=
  a.timeFactor now ≥ 1

/-- Model of `AppendOverTime::into_finished_string`. -/
noncomputable def AppendOverTime.intoFinishedString (a : AppendOverTime) :
    Option (List Char) :=
  (a.update (a.animationStart + a.animationDuration)).map (fun a2 => a2.s)

/-- The `Animation` sum type from `src/animation.rs`. -/
inductive Animation where
  | delete (d : DeleteOverTime)
  | append (a : AppendOverTime)
  | wait (s : List Char) (t : Real)
  | none (s : List Char)

/-- Model of `Animation::finished`. -/
def Animation.finished : Animation → Real → Prop
  | .delete d, now => d.finished now
  | .append a, now => a.finished now
  | .wait _ t, now => now > t
  | .none _, _ => True

/-- Model of `Animation::into_finished_string`. -/
noncomputable def Animation.intoFinishedString : Animation → Option (List Char)
  | .delete d => d.intoFinishedString
  | .append a => a.intoFinishedString
  | .wait s _ => some s
  | .none s => some s

/-- Model of `Animation::update`: `Delete`/`Append` states advance (and may
panic), the other variants are untouched. -/
noncomputable def Animation.update : Animation → Real → Option Animation
  | .delete d, now => (d.update now).map Animation.delete
  | .append a, now => (a.update now).map Animation.append
  | .wait s t, _ => some (.wait s t)
  | .none s, _ => some (.none s)

/-- Model of `apply_animation_req` from `src/animation.rs`: note that
`start_len` is captured as `s.len()`, a byte count. -/
def applyAnimationReq (req : AnimationReq) (s : List Char) (now : Real) : Animation :=
  match req with
  | .delete desiredLen animationDuration =>
      .delete ⟨s, byteLen s, desiredLen, now, animationDuration⟩
  | .append additionalChars animationDuration =>
      .append ⟨s, byteLen s, additionalChars, now, animationDuration⟩
  | .wait waitTime => .wait s (now + waitTime)

/-- Model of `construct_animation_requests` from `src/animation.rs`: the
first differing position of the zipped character sequences, defaulting to
`0` (`unwrap_or(0)`) when the zip contains no differing pair. -/
noncomputable def constructAnimationRequests (current desired : List Char) : List AnimationReq :=
  let firstDifferingChar :=
    (((current.zip desired).findIdx? (fun p => p.1 != p.2)).getD 0)
  (if current ≠ [] then
    [AnimationReq.wait (3 / 2), AnimationReq.delete firstDifferingChar (3 / 2)]
  else []) ++
  [AnimationReq.append (desired.drop firstDifferingChar) (3 / 2)]

/-- Model of `reset_animation` from `src/main.rs`; the freshly recomputed
target string (produced from the wall clock in the source) is passed in as
`newS`. -/
noncomputable def resetAnimation (newS current : List Char) : Animation × List AnimationReq :=
  (Animation.none current, constructAnimationRequests current newS)

/-- The animation-related state of `App` from `src/main.rs`. -/
structure AppState where
  currentAnimation : Animation
  animationQueue : List AnimationReq

/-- Model of the animation part of `App::update` from `src/main.rs`.  The
returned `Bool` records whether `self.current_animation.update(now)` was
executed on this tick; the queue-refill branch `return`s early without
reaching it.  `newTarget` is the freshly recomputed time-to-stream-start
string consumed by `reset_animation`. -/
noncomputable def appUpdate (st : AppState) (now : Real) (newTarget : List Char) :
    Option (AppState × Bool) :=
  haveI := Classical.propDecidable (st.currentAnimation.finished now)
  if st.currentAnimation.finished now then
    match st.currentAnimation.intoFinishedString with
    | Option.none => Option.none
    | Option.some s =>
      match st.animationQueue with
      | req :: rest =>
          ((applyAnimationReq req s now).update now).map
            (fun a2 => (⟨a2, rest⟩, true))
      | [] =>
          let r := resetAnimation newTarget s
          some (⟨r.1, r.2⟩, false)
  else
    (st.currentAnimation.update now).map (fun a2 => (⟨a2, st.animationQueue⟩, true))

/-- The error kinds of `ObjParseError` from `src/obj_parser.rs` (payloads
such as `ParseIntError` are irrelevant to the properties and dropped;
`FileRead` cannot occur because the input is modelled as a list of lines
already read). -/
inductive ObjParseError where
  | fileRead
  | missingType
  | missingVertex
  | nonFloatVertex
  | missingFaceVert
  | invalidFaceVert
  | invalidFaceUv
  | invalidFaceNorm
  | missingTexCoord
  | nonFloatTexCoord
deriving DecidableEq

/-- Result of running a fallible piece of the importer: an `Ok` value, a
returned `ObjParseError`, or a Rust panic. -/
inductive RRes (α : Type) where
  | ok (a : α)
  | err (e : ObjParseError)
  | panic
deriving DecidableEq

/-- Model of `str::parse::<u32>`: an optional `+` sign followed by one or
more ASCII digits, rejecting values past `u32::MAX` (overflow is a
`ParseIntError`, not a panic). -/
def parseU32 (s : List Char) : Option Nat :=
  let digits := match s with
    | '+' :: rest => rest
    | _ => s
  if digits ≠ [] ∧ digits.all Char.isDigit then
    let n := digits.foldl (fun acc c => 10 * acc + (c.toNat - '0'.toNat)) 0
    if n < 2 ^ 32 then some n else none
  else
    none

/-- Model of `str::split_whitespace`: split on whitespace runs, dropping
empty tokens. -/
def splitWs (s : List Char) : List (List Char) :=
  (s.splitOnP Char.isWhitespace).filter (fun t => t ≠ [])

/-- Model of `str::parse::<f32>` restricted to fixed-point decimal notation
(optional sign, integer digits, optional fractional digits); the value is
kept as an exact rational, standing in for the rounded `f32`.  Exponent,
`inf` and `NaN` forms never occur in the repository's inputs and are
omitted. -/
def parseF32 (s : List Char) : Option Rat :=
  let signAndRest : Bool × List Char := match s with
    | '+' :: rest => (false, rest)
    | '-' :: rest => (true, rest)
    | _ => (false, s)
  let neg := signAndRest.1
  let r := signAndRest.2
  let natVal := fun (l : List Char) =>
    l.foldl (fun acc c => 10 * acc + (c.toNat - '0'.toNat)) (0 : Nat)
  let signed := fun (n : Nat) => if neg then -(n : Int) else (n : Int)
  match r.splitOn '.' with
  | [ip] =>
    if ip ≠ [] ∧ ip.all Char.isDigit then some (mkRat (signed (natVal ip)) 1) else none
  | [ip, fp] =>
    if ip ++ fp ≠ [] ∧ (ip ++ fp).all Char.isDigit then
      some (mkRat (signed (natVal ip * 10 ^ fp.length + natVal fp)) (10 ^ fp.length))
    else
      none
  | _ => none

/-- The `FaceIndices` triple from `src/obj_parser.rs` (already converted to
0-based). -/
structure FaceIndices where
  vert : Nat
  uv : Nat
  norm : Nat
deriving DecidableEq

/-- Parsing of a single `i/j/k` face token inside `parse_face`: the first
`split('/')` component always exists; a missing second or third component
is an `expect` panic; each parsed 1-based index is converted with
`- 1u32`, whose underflow on `0` is a panic. -/
def parseFaceIdx (tok : List Char) : RRes FaceIndices :=
  match tok.splitOn '/' with
  | [] => .panic
  | p0 :: rest =>
    match parseU32 p0 with
    | Option.none => .err .invalidFaceVert
    | Option.some v =>
      if v = 0 then .panic else
      match rest with
      | [] => .panic
      | p1 :: rest2 =>
        match parseU32 p1 with
        | Option.none => .err .invalidFaceUv
        | Option.some u =>
          if u = 0 then .panic else
          match rest2 with
          | [] => .panic
          | p2 :: _ =>
            match parseU32 p2 with
            | Option.none => .err .invalidFaceNorm
            | Option.some n =>
              if n = 0 then .panic else .ok ⟨v - 1, u - 1, n - 1⟩

/-- Model of `parse_face` from `src/obj_parser.rs`: exactly three
whitespace tokens are consumed from the iterator (a missing one is
`MissingFaceVert`); any further tokens are left unread. -/
def parseFace (toks : List (List Char)) : RRes (FaceIndices × FaceIndices × FaceIndices) :=
  match toks with
  | [] => .err .missingFaceVert
  | t0 :: rest0 =>
    match parseFaceIdx t0 with
    | .panic => .panic
    | .err e => .err e
    | .ok f0 =>
      match rest0 with
      | [] => .err .missingFaceVert
      | t1 :: rest1 =>
        match parseFaceIdx t1 with
        | .panic => .panic
        | .err e => .err e
        | .ok f1 =>
          match rest1 with
          | [] => .err .missingFaceVert
          | t2 :: _ =>
            match parseFaceIdx t2 with
            | .panic => .panic
            | .err e => .err e
            | .ok f2 => .ok (f0, f1, f2)

/-- Model of `parse_vertex_n`: parse `n` float components, reporting a
missing token as `MissingVertex` and a bad float as `NonFloatVertex`;
returns the parsed components together with the unconsumed tokens. -/
def parseVertexN : List (List Char) → Nat → RRes (List Rat × List (List Char))
  | toks, 0 => .ok ([], toks)
  | [], _ + 1 => .err .missingVertex
  | t :: rest, n + 1 =>
    match parseF32 t with
    | Option.none => .err .nonFloatVertex
    | Option.some q =>
      match parseVertexN rest n with
      | .panic => .panic
      | .err e => .err e
      | .ok (qs, rem) => .ok (q :: qs, rem)

/-- Model of `parse_vertex`: three mandatory components plus an optional
`w` defaulting to `1.0`. -/
def parseVertex (toks : List (List Char)) : RRes (List Rat) :=
  match parseVertexN toks 3 with
  | .panic => .panic
  | .err e => .err e
  | .ok (qs, rest) =>
    match rest with
    | [] => .ok (qs ++ [1])
    | t :: _ =>
      match parseF32 t with
      | Option.none => .err .nonFloatVertex
      | Option.some w => .ok (qs ++ [w])

/-- Model of `parse_vertex_3` (used for `vn` lines). -/
def parseVertex3 (toks : List (List Char)) : RRes (List Rat) :=
  match parseVertexN toks 3 with
  | .panic => .panic
  | .err e => .err e
  | .ok (qs, _) => .ok qs

/-- Model of `parse_tex_coord`: two mandatory components with their own
error kinds. -/
def parseTexCoord (toks : List (List Char)) : RRes (List Rat) :=
  match toks with
  | [] => .err .missingTexCoord
  | t0 :: rest =>
    match parseF32 t0 with
    | Option.none => .err .nonFloatTexCoord
    | Option.some q0 =>
      match rest with
      | [] => .err .missingTexCoord
      | t1 :: _ =>
        match parseF32 t1 with
        | Option.none => .err .nonFloatTexCoord
        | Option.some q1 => .ok [q0, q1]

/-- The merged output vertex record `VertData` (position, uv, normal). -/
structure VertData where
  vert : List Rat
  uv : List Rat
  norm : List Rat
deriving DecidableEq

/-- The CPU-side `Mesh`: merged vertices plus triangle index triples. -/
structure Mesh where
  vertices : List VertData
  faces : List (Nat × Nat × Nat)
deriving DecidableEq

/-- Association-list model of the `HashMap<FaceIndices, MergedIndex>` used
by `obj_data_to_mesh` (only entry lookup and insertion are used by the
source, so insertion order is immaterial). -/
def lookupFI (m : List (FaceIndices × Nat)) (k : FaceIndices) : Option Nat :=
  match m with
  | [] => Option.none
  | (k2, v) :: rest => if k2 = k then some v else lookupFI rest k

/-- The per-face-vertex step of `obj_data_to_mesh`: reuse the merged index
when the triple was seen, otherwise copy the indexed source data (an
out-of-range index is an out-of-bounds slice panic, `none`) and append a
fresh merged vertex. -/
def processVert (inVertices inUvs inNormals : List (List Rat))
    (mapping : List (FaceIndices × Nat)) (outVerts : List VertData)
    (fi : FaceIndices) :
    Option (List (FaceIndices × Nat) × List VertData × Nat) :=
  match lookupFI mapping fi with
  | Option.some idx => some (mapping, outVerts, idx)
  | Option.none =>
    match inVertices[fi.vert]?, inUvs[fi.uv]?, inNormals[fi.norm]? with
    | some v, some u, some n =>
        some ((fi, outVerts.length) :: mapping, outVerts ++ [⟨v, u, n⟩], outVerts.length)
    | _, _, _ => Option.none

/-- The face loop of `obj_data_to_mesh`. -/
def processFaces (inVertices inUvs inNormals : List (List Rat)) :
    List (FaceIndices × FaceIndices × FaceIndices) →
    List (FaceIndices × Nat) → List VertData → List (Nat × Nat × Nat) →
    Option (List VertData × List (Nat × Nat × Nat))
  | [], _, outVerts, outFaces => some (outVerts, outFaces)
  | (f0, f1, f2) :: rest, mapping, outVerts, outFaces =>
    match processVert inVertices inUvs inNormals mapping outVerts f0 with
    | Option.none => Option.none
    | Option.some (m0, ov0, i0) =>
      match processVert inVertices inUvs inNormals m0 ov0 f1 with
      | Option.none => Option.none
      | Option.some (m1, ov1, i1) =>
        match processVert inVertices inUvs inNormals m1 ov1 f2 with
        | Option.none => Option.none
        | Option.some (m2, ov2, i2) =>
          processFaces inVertices inUvs inNormals rest m2 ov2 (outFaces ++ [(i0, i1, i2)])

/-- Model of `obj_data_to_mesh` from `src/obj_parser.rs`. -/
def objDataToMesh (inVertices inUvs inNormals : List (List Rat))
    (inFaces : List (FaceIndices × FaceIndices × FaceIndices)) : Option Mesh :=
  (processFaces inVertices inUvs inNormals inFaces [] [] []).map
    (fun p => ⟨p.1, p.2⟩)

/-- The line loop of `Mesh::from_obj_file`: accumulate `v`/`vt`/`vn`/`f`
records in file order; an unrecognized type token is logged and skipped. -/
def fromObjLines :
    List (List Char) →
    List (List Rat) → List (List Rat) → List (List Rat) →
    List (FaceIndices × FaceIndices × FaceIndices) →
    RRes (List (List Rat) × List (List Rat) × List (List Rat) ×
      List (FaceIndices × FaceIndices × FaceIndices))
  | [], vertices, texCoords, normals, faces => .ok (vertices, texCoords, normals, faces)
  | line :: rest, vertices, texCoords, normals, faces =>
    match splitWs line with
    | [] => .err .missingType
    | typ :: toks =>
      if typ = ['v'] then
        match parseVertex toks with
        | .panic => .panic
        | .err e => .err e
        | .ok v => fromObjLines rest (vertices ++ [v]) texCoords normals faces
      else if typ = ['f'] then
        match parseFace toks with
        | .panic => .panic
        | .err e => .err e
        | .ok f => fromObjLines rest vertices texCoords normals (faces ++ [f])
      else if typ = ['v', 't'] then
        match parseTexCoord toks with
        | .panic => .panic
        | .err e => .err e
        | .ok t => fromObjLines rest vertices (texCoords ++ [t]) normals faces
      else if typ = ['v', 'n'] then
        match parseVertex3 toks with
        | .panic => .panic
        | .err e => .err e
        | .ok n => fromObjLines rest vertices texCoords (normals ++ [n]) faces
      else
        fromObjLines rest vertices texCoords normals faces

/-- Model of `Mesh::from_obj_file`, taking the file as a list of lines
(I/O errors are out of scope); a panic inside `obj_data_to_mesh` (an
out-of-range face index) surfaces as `RRes.panic`. -/
def fromObjFile (lines : List (List Char)) : RRes Mesh :=
  match fromObjLines lines [] [] [] [] with
  | .panic => .panic
  | .err e => .err e
  | .ok (vertices, texCoords, normals, faces) =>
    match objDataToMesh vertices texCoords normals faces with
    | Option.some m => .ok m
    | Option.none => .panic

/-- The glyph metrics returned by the glyph cache (`left`, `top`, `width`,
`height` in pixels, `advance_x` in 1/64 font units), all integers in the
source. -/
structure GlyphInfo where
  left : Int
  top : Int
  width : Int
  height : Int
  advance_x : Int

/-- The parts of `GlyphRenderer` that the layout logic reads: the glyph
cache (modelled as a total lookup; rasterization failures are out of
scope) and its pixel size. -/
structure GlyphRenderer where
  cache : Char → GlyphInfo
  pixelSize : Nat

/-- Model of `GlyphRenderer::scale`: `1.0 / 32.0 / pixel_size`. -/
noncomputable def GlyphRenderer.scale (r : GlyphRenderer) : Real :=
  1 / 32 / (r.pixelSize : Real)

/-- Model of `GlyphRenderer::line_height`. -/
noncomputable def GlyphRenderer.lineHeight (r : GlyphRenderer) : Real :=
  400 * r.scale

/-- The `CursorMovement` result of `render_char`. -/
inductive CursorMovement where
  | repeat (v : Real)
  | horiz (v : Real)
  | vert (v : Real)

/-- Model of the control flow of `GlyphRenderer::render_char`: newline
moves down a line; a quad past the right screen edge (`x + w > 1.0`)
requests a retry on a fresh line; otherwise the glyph is drawn (GL calls
elided) and the cursor advances. -/
noncomputable def GlyphRenderer.renderChar (r : GlyphRenderer) (c : Char) (x _y : Real) :
    CursorMovement :=
  haveI := Classical.propDecidable (c = '\n')
  if c = '\n' then
    .vert (-r.lineHeight)
  else
    let g := r.cache c
    let gx := x + (g.left : Real) * r.scale
    let w := (g.width : Real) * r.scale
    haveI := Classical.propDecidable (gx + w > 1)
    if gx + w > 1 then
      .repeat (-r.lineHeight)
    else
      .horiz ((g.advance_x : Real) / 64 * r.scale)

/-- The character loop of `GlyphRenderer::render_str`, made fuel-indexed
because a `Repeat` retries the same character without consuming it (the
source loop is unbounded); `none` means the fuel ran out. -/
noncomputable def renderGo (r : GlyphRenderer) :
    List Char → Real → Real → Real → Real → Nat → Option (Real × Real)
  | _, _, _, _, _, 0 => Option.none
  | [], _, _, advance, advanceY, _ + 1 => some (advance, advanceY)
  | c :: rest, x, y, advance, advanceY, fuel + 1 =>
    match r.renderChar c (x + advance) (y + advanceY) with
    | .vert v => renderGo r rest x y 0 (advanceY + v) fuel
    | .horiz v => renderGo r rest x y (advance + v) advanceY fuel
    | .repeat v => renderGo r (c :: rest) x y 0 (advanceY + v) fuel

/-- Model of `GlyphRenderer::render_str` with explicit fuel. -/
noncomputable def GlyphRenderer.renderStr (r : GlyphRenderer) (s : List Char)
    (x y : Real) (fuel : Nat) : Option (Real × Real) :=
  renderGo r s x y 0 0 fuel

/-- Spec-side helper for the deduplication claim: the elements of a list in
order of first occurrence, each kept once (`seen` collects the elements
already emitted). -/
def firstOccursFrom : List FaceIndices → List FaceIndices → List FaceIndices
  | _, [] => []
  | seen, x :: xs =>
    if x ∈ seen then firstOccursFrom seen xs
    else x :: firstOccursFrom (x :: seen) xs

/-- The distinct face-index triples of a face list, in order of first
occurrence. -/
def firstOccurs (l : List FaceIndices) : List FaceIndices :=
  firstOccursFrom [] l

/-- All face-index triples of a face list, in traversal order. -/
def facesTriples (faces : List (FaceIndices × FaceIndices × FaceIndices)) :
    List FaceIndices :=
  faces.flatMap (fun t => [t.1, t.2.1, t.2.2])

/-- The merged vertex record a triple denotes (with a junk default for
out-of-range indices, which the theorems exclude). -/
def mkVert (inVertices inUvs inNormals : List (List Rat)) (fi : FaceIndices) : VertData :=
  ⟨inVertices.getD fi.vert [], inUvs.getD fi.uv [], inNormals.getD fi.norm []⟩

/-- The merged index a triple receives: its position among the distinct
triples in first-occurrence order. -/
def mergedIdx (faces : List (FaceIndices × FaceIndices × FaceIndices))
    (fi : FaceIndices) : Nat :=
  ((firstOccurs (facesTriples faces)).findIdx? (fun g => g = fi)).getD 0

lemma findIdx?_zip_append_self (a t : List Char) :
    ((a.zip (a ++ t)).findIdx? (fun p => p.1 != p.2)) = Option.none := by
  induction a with
  | nil => simp
  | cons x a ih => simp [List.findIdx?_cons, ih]

/-- Claim C1 fails on the code: for the non-empty strict prefix `"a"` of
`"ab"`, `construct_animation_requests` does not yield a single `Append` of
the suffix `"b"` (it emits a `Wait` and a `Delete` as well, because the
zip-based first differing position is `None` and `unwrap_or(0)` restarts
from 0). -/
theorem constructAnimationRequests_prefix_counterexample :
    ¬ ∃ d : Real,
      constructAnimationRequests ['a'] ['a', 'b'] = [AnimationReq.append ['b'] d] := by
  rintro ⟨d, h⟩
  simp [constructAnimationRequests, List.findIdx?_cons] at h

/-- Amended claim C1: for all non-empty strict prefixes `a` of `b`, the
zipped characters never differ, so `construct_animation_requests a b`
yields `Wait(1.5s)`, `Delete(desired_len = 0, 1.5s)` and an `Append` of
the whole of `b` — the entire line is deleted and retyped. -/
theorem constructAnimationRequests_of_prefix (a b : List Char)
    (hne : a ≠ []) (hpre : a <+: b) :
    constructAnimationRequests a b =
      [AnimationReq.wait (3 / 2), AnimationReq.delete 0 (3 / 2),
        AnimationReq.append b (3 / 2)] := by
  obtain ⟨t, rfl⟩ := hpre
  simp [constructAnimationRequests, findIdx?_zip_append_self, hne]

theorem constructAnimationRequests_of_prefix_witness :
    constructAnimationRequests ['x'] ['x', 'y'] =
      [AnimationReq.wait (3 / 2), AnimationReq.delete 0 (3 / 2),
        AnimationReq.append ['x', 'y'] (3 / 2)] :=
  constructAnimationRequests_of_prefix ['x'] ['x', 'y'] (by simp) ⟨['y'], rfl⟩

/-- Claim C3 fails on the code: for `current = "ab"`, `desired = "a"`, the
first index at which the strings differ character-by-character is 1 (the
`b` has no counterpart), but the code's zip finds no differing pair and
defaults to 0, deleting everything and retyping all of `desired`. -/
theorem constructAnimationRequests_first_diff_counterexample :
    ¬ ∃ d1 d2 d3 : Real,
      constructAnimationRequests ['a', 'b'] ['a'] =
        [AnimationReq.wait d1, AnimationReq.delete 1 d2, AnimationReq.append [] d3] := by
  rintro ⟨d1, d2, d3, h⟩
  simp [constructAnimationRequests, List.findIdx?_cons] at h

/-- Amended claim C3: `construct_animation_requests` is a pure function
whose value is fully determined: for empty `current` it is a single
`Append` of all of `desired`; otherwise it is `Wait(1.5s)`,
`Delete(i, 1.5s)`, `Append(desired[i:], 1.5s)` where `i` is the first
position at which the zipped characters of `current` and `desired` differ,
defaulting to 0 when they agree on the whole overlap. -/
theorem constructAnimationRequests_spec (current desired : List Char) :
    (current = [] →
      constructAnimationRequests current desired =
        [AnimationReq.append desired (3 / 2)]) ∧
    (current ≠ [] →
      constructAnimationRequests current desired =
        [AnimationReq.wait (3 / 2),
          AnimationReq.delete
            (((current.zip desired).findIdx? (fun p => p.1 != p.2)).getD 0) (3 / 2),
          AnimationReq.append
            (desired.drop
              (((current.zip desired).findIdx? (fun p => p.1 != p.2)).getD 0))
            (3 / 2)]) := by
  constructor
  · intro h
    simp [constructAnimationRequests, h]
  · intro h
    simp [constructAnimationRequests, h]

theorem constructAnimationRequests_spec_witness :
    constructAnimationRequests ['p'] ['q'] =
      [AnimationReq.wait (3 / 2), AnimationReq.delete 0 (3 / 2),
        AnimationReq.append ['q'] (3 / 2)] := by
  have h := (constructAnimationRequests_spec ['p'] ['q']).2 (by simp)
  simpa [List.findIdx?_cons] using h

lemma fclamp_eq_self {x : Real} (h0 : 0 ≤ x) (h1 : x ≤ 1) : fclamp x 0 1 = x := by
  unfold fclamp
  rw [max_eq_left h0, min_eq_left h1]

lemma inSine_zero : inSine 0 = 0 := by
  simp [inSine]

lemma inSine_one : inSine 1 = 1 := by
  unfold inSine
  rw [show (1 : Real) * Real.pi / 2 = Real.pi / 2 by ring, Real.cos_pi_div_two]
  norm_num

lemma inSine_two_thirds : inSine (2 / 3) = 1 / 2 := by
  unfold inSine
  rw [show (2 / 3 : Real) * Real.pi / 2 = Real.pi / 3 by ring, Real.cos_pi_div_three]
  norm_num

lemma deleteUpdate_eval (d : DeleteOverTime) (now f : Real) (k : Nat)
    (hle : d.desired_len ≤ d.start_len)
    (htf : inSine (d.timeFactor now) = f)
    (hk : Nat.floor (((d.start_len - d.desired_len : Nat) : Real) * f) = k) :
    d.update now = (strTruncate d.s (d.start_len - k)).map (fun t => { d with s := t }) := by
  unfold DeleteOverTime.update
  rw [if_pos hle]
  simp only [htf, hk]

lemma appendUpdate_eval (a : AppendOverTime) (now f : Real) (k : Nat)
    (hle : a.start_len ≤ a.s.length + a.additionalCharacters.length)
    (htf : inSine (a.timeFactor now) = f)
    (hk : Nat.floor (((a.s.length + a.additionalCharacters.length - a.start_len : Nat) : Real) * f) = k) :
    a.update now =
      (appendLoop a.s a.additionalCharacters (k + a.start_len)).map
        (fun p => { a with s := p.1, additionalCharacters := p.2 }) := by
  unfold AppendOverTime.update
  rw [if_pos hle]
  simp only [htf, hk]

/-- Claim C2 names a real bug: the animation bookkeeping mixes byte counts
and character counts.  `apply_animation_req` captures `start_len` as the
byte length (4 for `"aéb"`), and a `Delete` to length 0 — exactly what
`construct_animation_requests` emits for a non-empty current string —
calls `String::truncate(2)` midway through the animation (at
`now = start + (2/3)·duration`, where the eased fraction is 1/2), which is
inside the 2-byte `é` and panics. -/
theorem deleteOverTime_multibyte_panic :
    applyAnimationReq (AnimationReq.delete 0 (3 / 2)) ['a', 'é', 'b'] 0 =
      Animation.delete ⟨['a', 'é', 'b'], 4, 0, 0, 3 / 2⟩ ∧
    DeleteOverTime.update ⟨['a', 'é', 'b'], 4, 0, 0, 3 / 2⟩ 1 = Option.none := by
  constructor
  · have hb : byteLen ['a', 'é', 'b'] = 4 := by decide
    simp only [applyAnimationReq, hb]
  · have htf : DeleteOverTime.timeFactor ⟨['a', 'é', 'b'], 4, 0, 0, 3 / 2⟩ 1 = 2 / 3 := by
      unfold DeleteOverTime.timeFactor
      rw [show ((1 : Real) - 0) / (3 / 2) = 2 / 3 by norm_num]
      exact fclamp_eq_self (by norm_num) (by norm_num)
    have h := deleteUpdate_eval ⟨['a', 'é', 'b'], 4, 0, 0, 3 / 2⟩ 1 (1 / 2) 2
      (by norm_num) (by rw [htf]; exact inSine_two_thirds)
      (by norm_num)
    rw [h]
    have hs : strTruncate ['a', 'é', 'b'] (4 - 2) = Option.none := by decide
    simp [hs]

lemma fclamp_mem_Icc (x : Real) : fclamp x 0 1 ∈ Set.Icc (0 : Real) 1 := by
  unfold fclamp
  constructor
  · exact le_min (le_max_right x 0) zero_le_one
  · exact min_le_right _ 1

lemma fclamp_mono {x y : Real} (h : x ≤ y) : fclamp x 0 1 ≤ fclamp y 0 1 := by
  unfold fclamp
  exact min_le_min (max_le_max h le_rfl) le_rfl

lemma fclamp_of_one_le {x : Real} (h : 1 ≤ x) : fclamp x 0 1 = 1 := by
  unfold fclamp
  rw [max_eq_left (zero_le_one.trans h), min_eq_right h]

lemma inSine_nonneg (t : Real) : 0 ≤ inSine t := by
  unfold inSine
  have := Real.cos_le_one ((t * Real.pi) / 2)
  linarith

lemma inSine_le_one {t : Real} (h0 : 0 ≤ t) (h1 : t ≤ 1) : inSine t ≤ 1 := by
  unfold inSine
  have hpi := Real.pi_pos
  have hc : 0 ≤ Real.cos ((t * Real.pi) / 2) := by
    apply Real.cos_nonneg_of_mem_Icc
    constructor
    · nlinarith
    · nlinarith
  linarith

lemma inSine_mono {a b : Real} (h0 : 0 ≤ a) (hab : a ≤ b) (h1 : b ≤ 1) :
    inSine a ≤ inSine b := by
  unfold inSine
  have hpi := Real.pi_pos
  have hc : Real.cos ((b * Real.pi) / 2) ≤ Real.cos ((a * Real.pi) / 2) := by
    apply Real.cos_le_cos_of_nonneg_of_le_pi
    · nlinarith
    · nlinarith
    · nlinarith
  linarith

lemma timeFactor_mono {start dur t1 t2 : Real} (hdur : 0 < dur) (h : t1 ≤ t2) :
    fclamp ((t1 - start) / dur) 0 1 ≤ fclamp ((t2 - start) / dur) 0 1 := by
  apply fclamp_mono
  exact (div_le_div_iff_of_pos_right hdur).mpr (sub_le_sub_right h start)

lemma byteLen_nil : byteLen [] = 0 := rfl

lemma byteLen_cons (c : Char) (s : List Char) :
    byteLen (c :: s) = c.utf8Size + byteLen s := by
  simp [byteLen]

lemma byteLen_append (s t : List Char) :
    byteLen (s ++ t) = byteLen s + byteLen t := by
  simp [byteLen]

lemma byteLen_eq_length {s : List Char} (h : ∀ c ∈ s, c.utf8Size = 1) :
    byteLen s = s.length := by
  induction s with
  | nil => rfl
  | cons c rest ih =>
    rw [byteLen_cons, h c (by simp), ih (fun x hx => h x (by simp [hx]))]
    simp [Nat.add_comm]

lemma takeBytes_byteLen :
    ∀ (s : List Char) (n : Nat) (t : List Char),
      takeBytes s n = some t → byteLen t = n := by
  intro s
  induction s with
  | nil =>
    intro n t h
    cases n with
    | zero =>
      have h2 : some ([] : List Char) = some t := h
      cases h2
      rfl
    | succ m => exact Option.noConfusion h
  | cons c rest ih =>
    intro n t h
    cases n with
    | zero =>
      have h2 : some ([] : List Char) = some t := h
      cases h2
      rfl
    | succ m =>
      rw [takeBytes] at h
      by_cases hsz : c.utf8Size ≤ m + 1
      · rw [if_pos hsz, Option.map_eq_some'] at h
        obtain ⟨t2, ht2, rfl⟩ := h
        rw [byteLen_cons, ih _ _ ht2, Nat.add_sub_cancel' hsz]
      · rw [if_neg hsz] at h
        exact absurd h (by simp)

lemma strTruncate_byteLen {s : List Char} {n : Nat} {t : List Char}
    (h : strTruncate s n = some t) : byteLen t = min (byteLen s) n := by
  unfold strTruncate at h
  by_cases hle : byteLen s ≤ n
  · rw [if_pos hle] at h
    cases h
    exact (min_eq_left hle).symm
  · rw [if_neg hle] at h
    rw [takeBytes_byteLen s n t h]
    exact (min_eq_right (le_of_not_le hle)).symm

lemma appendLoop_length_le :
    ∀ (pending s : List Char) (d : Nat) (t r : List Char),
      appendLoop s pending d = some (t, r) → s.length ≤ t.length := by
  intro pending
  induction pending with
  | nil =>
    intro s d t r h
    unfold appendLoop at h
    split at h
    · exact Option.noConfusion h
    · cases h
      exact le_rfl
  | cons c rest ih =>
    intro s d t r h
    unfold appendLoop at h
    split at h
    · have := ih (s ++ [c]) d t r h
      simpa using Nat.le_of_succ_le (by simpa using this)
    · cases h
      exact le_rfl

lemma appendLoop_mono :
    ∀ (pending s : List Char) (d1 d2 : Nat) (t1 r1 t2 r2 : List Char),
      d1 ≤ d2 →
      appendLoop s pending d1 = some (t1, r1) →
      appendLoop s pending d2 = some (t2, r2) →
      t1.length ≤ t2.length := by
  intro pending
  induction pending with
  | nil =>
    intro s d1 d2 t1 r1 t2 r2 hd h1 h2
    unfold appendLoop at h1
    split at h1
    · exact Option.noConfusion h1
    · cases h1
      exact appendLoop_length_le [] s d2 t2 r2 h2
  | cons c rest ih =>
    intro s d1 d2 t1 r1 t2 r2 hd h1 h2
    unfold appendLoop at h1
    split at h1
    · rename_i hlt1
      have hlt2 : byteLen s < d2 := lt_of_lt_of_le hlt1 hd
      unfold appendLoop at h2
      rw [if_pos hlt2] at h2
      exact ih (s ++ [c]) d1 d2 t1 r1 t2 r2 hd h1 h2
    · cases h1
      exact appendLoop_length_le (c :: rest) s d2 t2 r2 h2

lemma appendLoop_exact :
    ∀ (pending s : List Char),
      (∀ c ∈ s, c.utf8Size = 1) → (∀ c ∈ pending, c.utf8Size = 1) →
      appendLoop s pending (s.length + pending.length) = some (s ++ pending, []) := by
  intro pending
  induction pending with
  | nil =>
    intro s hs _
    unfold appendLoop
    rw [if_neg (by rw [byteLen_eq_length hs]; simp)]
    simp
  | cons c rest ih =>
    intro s hs hp
    unfold appendLoop
    rw [if_pos (by rw [byteLen_eq_length hs]; simp)]
    have hs2 : ∀ x ∈ s ++ [c], x.utf8Size = 1 := by
      intro x hx
      rcases List.mem_append.mp hx with hx2 | hx2
      · exact hs x hx2
      · simp at hx2
        rw [hx2]
        exact hp c (by simp)
    have hlen : s.length + (c :: rest).length = (s ++ [c]).length + rest.length := by
      simp
      omega
    rw [hlen]
    show appendLoop (s ++ [c]) rest ((s ++ [c]).length + rest.length) =
      some (s ++ c :: rest, [])
    rw [ih (s ++ [c]) hs2 (fun x hx => hp x (by simp [hx]))]
    simp

lemma deleteUpdate_some {d : DeleteOverTime} {now : Real} {d2 : DeleteOverTime}
    (h : d.update now = some d2) :
    d.desired_len ≤ d.start_len ∧
      strTruncate d.s
        (d.start_len -
          Nat.floor (((d.start_len - d.desired_len : Nat) : Real) * inSine (d.timeFactor now))) =
        some d2.s := by
  by_cases hle : d.desired_len ≤ d.start_len
  · rw [deleteUpdate_eval d now (inSine (d.timeFactor now)) _ hle rfl rfl] at h
    rw [Option.map_eq_some'] at h
    obtain ⟨t, ht, hd2⟩ := h
    cases hd2
    exact ⟨hle, ht⟩
  · unfold DeleteOverTime.update at h
    rw [if_neg hle] at h
    exact Option.noConfusion h

lemma appendUpdate_none {a : AppendOverTime} {now : Real}
    (hle : ¬ a.start_len ≤ a.s.length + a.additionalCharacters.length) :
    a.update now = Option.none := by
  unfold AppendOverTime.update
  rw [if_neg hle]

lemma appendUpdate_some {a : AppendOverTime} {now : Real} {a2 : AppendOverTime}
    (h : a.update now = some a2) :
    a.start_len ≤ a.s.length + a.additionalCharacters.length ∧
      appendLoop a.s a.additionalCharacters
        (Nat.floor (((a.s.length + a.additionalCharacters.length - a.start_len : Nat) : Real) *
            inSine (a.timeFactor now)) + a.start_len) =
        some (a2.s, a2.additionalCharacters) := by
  by_cases hle : a.start_len ≤ a.s.length + a.additionalCharacters.length
  · rw [appendUpdate_eval a now (inSine (a.timeFactor now)) _ hle rfl rfl] at h
    rw [Option.map_eq_some'] at h
    obtain ⟨p, hp, ha2⟩ := h
    cases ha2
    refine ⟨hle, ?_⟩
    simpa using hp
  · rw [appendUpdate_none hle] at h
    exact Option.noConfusion h

/-- Claim C4 fails as stated for byte-inconsistent states: the Appending
state produced by `apply_animation_req(Append{chars: "", ..}, "é", t0)` has
`start_len = 2` (bytes) but a character-counted final length of 1, so
`update` at the end instant panics on the `usize` subtraction
`final_len - start_len` instead of reaching length
`start_len + totalPending`. -/
theorem appendOverTime_exactness_counterexample :
    applyAnimationReq (AnimationReq.append [] 1) ['é'] 0 =
      Animation.append ⟨['é'], 2, [], 0, 1⟩ ∧
    AppendOverTime.update ⟨['é'], 2, [], 0, 1⟩ 1 = Option.none := by
  constructor
  · have hb : byteLen ['é'] = 2 := by decide
    simp only [applyAnimationReq, hb]
  · exact appendUpdate_none (by decide)

/-- Amended claim C4, restricted to well-formed states (positive duration;
`desired_len` within the text's byte length for the Delete exactness;
byte-consistent single-byte text for the Append exactness, the multi-byte
case being the C2/C4 counterexample bug): Delete lengths are non-increasing
in `now` and reach exactly `desired_len` at or after `start + duration`;
Append lengths are non-decreasing and reach exactly
`start_len + totalPending`; the eased time fraction is always clamped to
`[0, 1]`. -/
theorem animation_update_monotone_exact :
    (∀ (d : DeleteOverTime) (t1 t2 : Real) (d1 d2 : DeleteOverTime),
      0 < d.animationDuration → t1 ≤ t2 →
      d.update t1 = some d1 → d.update t2 = some d2 →
      byteLen d2.s ≤ byteLen d1.s) ∧
    (∀ (d : DeleteOverTime) (t : Real) (d2 : DeleteOverTime),
      0 < d.animationDuration → d.desired_len ≤ byteLen d.s →
      d.animationStart + d.animationDuration ≤ t →
      d.update t = some d2 → byteLen d2.s = d.desired_len) ∧
    (∀ (a : AppendOverTime) (t1 t2 : Real) (a1 a2 : AppendOverTime),
      0 < a.animationDuration → t1 ≤ t2 →
      a.update t1 = some a1 → a.update t2 = some a2 →
      a1.s.length ≤ a2.s.length) ∧
    (∀ (a : AppendOverTime) (t : Real) (a2 : AppendOverTime),
      0 < a.animationDuration → a.start_len = a.s.length →
      (∀ c ∈ a.s, c.utf8Size = 1) →
      (∀ c ∈ a.additionalCharacters, c.utf8Size = 1) →
      a.animationStart + a.animationDuration ≤ t →
      a.update t = some a2 →
      a2.s.length = a.start_len + a.additionalCharacters.length) ∧
    (∀ (d : DeleteOverTime) (a : AppendOverTime) (now : Real),
      (d.timeFactor now ∈ Set.Icc (0 : Real) 1 ∧
        inSine (d.timeFactor now) ∈ Set.Icc (0 : Real) 1) ∧
      (a.timeFactor now ∈ Set.Icc (0 : Real) 1 ∧
        inSine (a.timeFactor now) ∈ Set.Icc (0 : Real) 1)) := by
  have hdel_tf_icc : ∀ (d : DeleteOverTime) (t : Real),
      d.timeFactor t ∈ Set.Icc (0 : Real) 1 := by
    intro d t
    exact fclamp_mem_Icc _
  have happ_tf_icc : ∀ (a : AppendOverTime) (t : Real),
      a.timeFactor t ∈ Set.Icc (0 : Real) 1 := by
    intro a t
    exact fclamp_mem_Icc _
  have hdel_tf_one : ∀ (d : DeleteOverTime) (t : Real),
      0 < d.animationDuration → d.animationStart + d.animationDuration ≤ t →
      d.timeFactor t = 1 := by
    intro d t hdur ht
    show fclamp ((t - d.animationStart) / d.animationDuration) 0 1 = 1
    apply fclamp_of_one_le
    rw [le_div_iff₀ hdur]
    linarith
  have happ_tf_one : ∀ (a : AppendOverTime) (t : Real),
      0 < a.animationDuration → a.animationStart + a.animationDuration ≤ t →
      a.timeFactor t = 1 := by
    intro a t hdur ht
    show fclamp ((t - a.animationStart) / a.animationDuration) 0 1 = 1
    apply fclamp_of_one_le
    rw [le_div_iff₀ hdur]
    linarith
  refine ⟨?_, ?_, ?_, ?_, ?_⟩
  · intro d t1 t2 d1 d2 hdur h12 h1 h2
    obtain ⟨hle, ht1⟩ := deleteUpdate_some h1
    obtain ⟨-, ht2⟩ := deleteUpdate_some h2
    have htfm : d.timeFactor t1 ≤ d.timeFactor t2 := timeFactor_mono hdur h12
    have hb1 := hdel_tf_icc d t1
    have hb2 := hdel_tf_icc d t2
    have hins : inSine (d.timeFactor t1) ≤ inSine (d.timeFactor t2) :=
      inSine_mono hb1.1 htfm hb2.2
    have hk : Nat.floor (((d.start_len - d.desired_len : Nat) : Real) *
          inSine (d.timeFactor t1)) ≤
        Nat.floor (((d.start_len - d.desired_len : Nat) : Real) *
          inSine (d.timeFactor t2)) :=
      Nat.floor_mono (mul_le_mul_of_nonneg_left hins (Nat.cast_nonneg _))
    rw [strTruncate_byteLen ht1, strTruncate_byteLen ht2]
    exact min_le_min le_rfl (Nat.sub_le_sub_left hk _)
  · intro d t d2 hdur hdlen ht h
    obtain ⟨hle, htr⟩ := deleteUpdate_some h
    rw [hdel_tf_one d t hdur ht, inSine_one, mul_one, Nat.floor_natCast,
      Nat.sub_sub_self hle] at htr
    rw [strTruncate_byteLen htr]
    exact min_eq_right hdlen
  · intro a t1 t2 a1 a2 hdur h12 h1 h2
    obtain ⟨hle, ha1⟩ := appendUpdate_some h1
    obtain ⟨-, ha2⟩ := appendUpdate_some h2
    have htfm : a.timeFactor t1 ≤ a.timeFactor t2 := timeFactor_mono hdur h12
    have hb1 := happ_tf_icc a t1
    have hb2 := happ_tf_icc a t2
    have hins : inSine (a.timeFactor t1) ≤ inSine (a.timeFactor t2) :=
      inSine_mono hb1.1 htfm hb2.2
    have hk : Nat.floor (((a.s.length + a.additionalCharacters.length - a.start_len : Nat) : Real) *
            inSine (a.timeFactor t1)) + a.start_len ≤
        Nat.floor (((a.s.length + a.additionalCharacters.length - a.start_len : Nat) : Real) *
            inSine (a.timeFactor t2)) + a.start_len :=
      Nat.add_le_add_right
        (Nat.floor_mono (mul_le_mul_of_nonneg_left hins (Nat.cast_nonneg _))) _
    exact appendLoop_mono a.additionalCharacters a.s _ _ _ _ _ _ hk ha1 ha2
  · intro a t a2 hdur hsl hws hwp ht h
    obtain ⟨hle, ha⟩ := appendUpdate_some h
    rw [happ_tf_one a t hdur ht, inSine_one, mul_one, Nat.floor_natCast,
      Nat.sub_add_cancel hle] at ha
    rw [appendLoop_exact a.additionalCharacters a.s hws hwp] at ha
    have h2 : a.s ++ a.additionalCharacters = a2.s := by
      exact congrArg Prod.fst (Option.some.inj ha)
    rw [← h2]
    simp [hsl]
  · intro d a now
    have hb1 := hdel_tf_icc d now
    have hb2 := happ_tf_icc a now
    exact ⟨⟨hb1, ⟨inSine_nonneg _, inSine_le_one hb1.1 hb1.2⟩⟩,
      ⟨hb2, ⟨inSine_nonneg _, inSine_le_one hb2.1 hb2.2⟩⟩⟩

lemma deleteWitness_update_zero :
    DeleteOverTime.update ⟨['a', 'b'], 2, 1, 0, 1⟩ 0 =
      some ⟨['a', 'b'], 2, 1, 0, 1⟩ := by
  have htf : DeleteOverTime.timeFactor ⟨['a', 'b'], 2, 1, 0, 1⟩ 0 = 0 := by
    show fclamp (((0 : Real) - 0) / 1) 0 1 = 0
    rw [show ((0 : Real) - 0) / 1 = 0 by norm_num]
    exact fclamp_eq_self le_rfl zero_le_one
  rw [deleteUpdate_eval _ 0 0 0 (by norm_num)
    (by rw [htf]; exact inSine_zero) (by simp)]
  rw [show strTruncate ['a', 'b'] (2 - 0) = some ['a', 'b'] from by decide]
  rfl

lemma deleteWitness_update_one :
    DeleteOverTime.update ⟨['a', 'b'], 2, 1, 0, 1⟩ 1 =
      some ⟨['a'], 2, 1, 0, 1⟩ := by
  have htf : DeleteOverTime.timeFactor ⟨['a', 'b'], 2, 1, 0, 1⟩ 1 = 1 := by
    show fclamp (((1 : Real) - 0) / 1) 0 1 = 1
    rw [show ((1 : Real) - 0) / 1 = 1 by norm_num]
    exact fclamp_of_one_le le_rfl
  rw [deleteUpdate_eval _ 1 1 1 (by norm_num)
    (by rw [htf]; exact inSine_one) (by simp)]
  rw [show strTruncate ['a', 'b'] (2 - 1) = some ['a'] from by decide]
  rfl

lemma appendLoop_witness_short :
    appendLoop ['a'] ['b', 'c'] (0 + 1) = some (['a'], ['b', 'c']) := by
  show appendLoop ['a'] ['b', 'c'] 1 = some (['a'], ['b', 'c'])
  conv_lhs => rw [appendLoop.eq_def]
  rfl

lemma appendLoop_witness_full :
    appendLoop ['a'] ['b', 'c'] (2 + 1) = some (['a', 'b', 'c'], []) := by
  show appendLoop ['a'] ['b', 'c'] 3 = some (['a', 'b', 'c'], [])
  have e1 : appendLoop ['a'] ['b', 'c'] 3 = appendLoop ['a', 'b'] ['c'] 3 := by
    conv_lhs => rw [appendLoop.eq_def]
    rfl
  have e2 : appendLoop ['a', 'b'] ['c'] 3 = appendLoop ['a', 'b', 'c'] [] 3 := by
    conv_lhs => rw [appendLoop.eq_def]
    rfl
  have e3 : appendLoop ['a', 'b', 'c'] [] 3 = some (['a', 'b', 'c'], []) := by
    conv_lhs => rw [appendLoop.eq_def]
    rfl
  rw [e1, e2, e3]

lemma appendWitness_update_zero :
    AppendOverTime.update ⟨['a'], 1, ['b', 'c'], 0, 1⟩ 0 =
      some ⟨['a'], 1, ['b', 'c'], 0, 1⟩ := by
  have htf : AppendOverTime.timeFactor ⟨['a'], 1, ['b', 'c'], 0, 1⟩ 0 = 0 := by
    show fclamp (((0 : Real) - 0) / 1) 0 1 = 0
    rw [show ((0 : Real) - 0) / 1 = 0 by norm_num]
    exact fclamp_eq_self le_rfl zero_le_one
  rw [appendUpdate_eval _ 0 0 0 (by decide)
    (by rw [htf]; exact inSine_zero) (by simp)]
  rw [appendLoop_witness_short]
  rfl

lemma appendWitness_update_one :
    AppendOverTime.update ⟨['a'], 1, ['b', 'c'], 0, 1⟩ 1 =
      some ⟨['a', 'b', 'c'], 1, [], 0, 1⟩ := by
  have htf : AppendOverTime.timeFactor ⟨['a'], 1, ['b', 'c'], 0, 1⟩ 1 = 1 := by
    show fclamp (((1 : Real) - 0) / 1) 0 1 = 1
    rw [show ((1 : Real) - 0) / 1 = 1 by norm_num]
    exact fclamp_of_one_le le_rfl
  rw [appendUpdate_eval _ 1 1 2 (by decide)
    (by rw [htf]; exact inSine_one) (by simp)]
  rw [appendLoop_witness_full]
  rfl

theorem animation_update_monotone_exact_witness :
    byteLen ['a'] ≤ byteLen ['a', 'b'] ∧
    byteLen ['a'] = 1 ∧
    List.length ['a'] ≤ List.length ['a', 'b', 'c'] ∧
    List.length ['a', 'b', 'c'] = 1 + List.length ['b', 'c'] ∧
    (DeleteOverTime.timeFactor ⟨['a', 'b'], 2, 1, 0, 1⟩ 0 ∈ Set.Icc (0 : Real) 1 ∧
      inSine (DeleteOverTime.timeFactor ⟨['a', 'b'], 2, 1, 0, 1⟩ 0) ∈ Set.Icc (0 : Real) 1) ∧
    (AppendOverTime.timeFactor ⟨['a'], 1, ['b', 'c'], 0, 1⟩ 0 ∈ Set.Icc (0 : Real) 1 ∧
      inSine (AppendOverTime.timeFactor ⟨['a'], 1, ['b', 'c'], 0, 1⟩ 0) ∈ Set.Icc (0 : Real) 1) := by
  obtain ⟨p1, p2, p3, p4, p5⟩ := animation_update_monotone_exact
  refine ⟨?_, ?_, ?_, ?_, ?_, ?_⟩
  · exact p1 ⟨['a', 'b'], 2, 1, 0, 1⟩ 0 1 ⟨['a', 'b'], 2, 1, 0, 1⟩ ⟨['a'], 2, 1, 0, 1⟩
      one_pos zero_le_one deleteWitness_update_zero deleteWitness_update_one
  · exact p2 ⟨['a', 'b'], 2, 1, 0, 1⟩ 1 ⟨['a'], 2, 1, 0, 1⟩
      one_pos (by decide) (by norm_num) deleteWitness_update_one
  · exact p3 ⟨['a'], 1, ['b', 'c'], 0, 1⟩ 0 1 ⟨['a'], 1, ['b', 'c'], 0, 1⟩
      ⟨['a', 'b', 'c'], 1, [], 0, 1⟩ one_pos zero_le_one
      appendWitness_update_zero appendWitness_update_one
  · exact p4 ⟨['a'], 1, ['b', 'c'], 0, 1⟩ 1 ⟨['a', 'b', 'c'], 1, [], 0, 1⟩
      one_pos rfl (by decide) (by decide) (by norm_num) appendWitness_update_one
  · exact (p5 ⟨['a', 'b'], 2, 1, 0, 1⟩ ⟨['a'], 1, ['b', 'c'], 0, 1⟩ 0).1
  · exact (p5 ⟨['a', 'b'], 2, 1, 0, 1⟩ ⟨['a'], 1, ['b', 'c'], 0, 1⟩ 0).2

/-- Claim C5 fails on the code: on a tick where the current animation is
finished and the queue is empty, `App::update` refills the queue via
`reset_animation` and `return`s early, so `current_animation.update(now)`
is not called on that tick (the returned flag records whether the `update`
call was reached). -/
theorem appUpdate_refill_counterexample :
    appUpdate ⟨Animation.none ['h'], []⟩ 0 ['h', 'i'] =
      some (⟨Animation.none ['h'],
        [AnimationReq.wait (3 / 2), AnimationReq.delete 0 (3 / 2),
          AnimationReq.append ['h', 'i'] (3 / 2)]⟩, false) := by
  unfold appUpdate
  rw [if_pos (by trivial)]
  simp [Animation.intoFinishedString, resetAnimation, constructAnimationRequests,
    List.findIdx?_cons]

/-- Amended claim C5: each tick, a finished animation is converted into its
finished string and the next request (if any) becomes the new state, after
which `update` runs; but when the queue is empty the state and queue are
refilled via `reset_animation` and the function returns early — `update`
is not called on the refill tick.  The skip is unobservable on the
animation state, because the refilled current state is `Animation::None`,
whose `update` is a no-op. -/
theorem appUpdate_spec (st : AppState) (now : Real) (target : List Char) :
    (¬ st.currentAnimation.finished now →
      appUpdate st now target =
        (st.currentAnimation.update now).map
          (fun a2 => (⟨a2, st.animationQueue⟩, true))) ∧
    (∀ s req rest, st.currentAnimation.finished now →
      st.currentAnimation.intoFinishedString = some s →
      st.animationQueue = req :: rest →
      appUpdate st now target =
        ((applyAnimationReq req s now).update now).map
          (fun a2 => (⟨a2, rest⟩, true))) ∧
    (∀ s, st.currentAnimation.finished now →
      st.currentAnimation.intoFinishedString = some s →
      st.animationQueue = [] →
      appUpdate st now target =
        some (⟨Animation.none s, constructAnimationRequests s target⟩, false) ∧
      Animation.update (Animation.none s) now = some (Animation.none s)) := by
  refine ⟨?_, ?_, ?_⟩
  · intro h
    unfold appUpdate
    rw [if_neg h]
  · intro s req rest hf hs hq
    unfold appUpdate
    rw [if_pos hf, hs, hq]
  · intro s hf hs hq
    constructor
    · unfold appUpdate
      rw [if_pos hf, hs, hq]
      simp [resetAnimation]
    · rfl

theorem appUpdate_spec_witness :
    appUpdate ⟨Animation.none ['x'], []⟩ 0 ['y'] =
      some (⟨Animation.none ['x'], constructAnimationRequests ['x'] ['y']⟩, false) ∧
    Animation.update (Animation.none ['x']) 0 = some (Animation.none ['x']) :=
  (appUpdate_spec ⟨Animation.none ['x'], []⟩ 0 ['y']).2.2 ['x'] trivial rfl rfl

/-- Claim C6 fails on the code: a face line with four vertex tokens is not
rejected — `parse_face` consumes exactly three tokens and silently ignores
the rest, so a quad face parses successfully. -/
theorem parseFace_extra_tokens_counterexample :
    parseFace [['1', '/', '1', '/', '1'], ['2', '/', '2', '/', '2'],
        ['3', '/', '3', '/', '3'], ['4', '/', '4', '/', '4']] =
      RRes.ok (⟨0, 0, 0⟩, ⟨1, 1, 1⟩, ⟨2, 2, 2⟩) := by
  decide

/-- Amended claim C6: `parse_face` requires at least 3 face-vertex tokens —
fewer than 3 fail with `MissingFaceVert` (once the present tokens parse) —
but tokens beyond the third are ignored rather than rejected, and every
in-range (nonzero) 1-based index of an accepted token is converted to
0-based by subtracting one. -/
theorem parseFace_spec :
    (∀ t0 t1 t2 rest, parseFace (t0 :: t1 :: t2 :: rest) = parseFace [t0, t1, t2]) ∧
    parseFace [] = RRes.err .missingFaceVert ∧
    (∀ t0 f0, parseFaceIdx t0 = .ok f0 →
      parseFace [t0] = RRes.err .missingFaceVert) ∧
    (∀ t0 t1 f0 f1, parseFaceIdx t0 = .ok f0 → parseFaceIdx t1 = .ok f1 →
      parseFace [t0, t1] = RRes.err .missingFaceVert) ∧
    (∀ tok p0 p1 p2 v u n, tok.splitOn '/' = [p0, p1, p2] →
      parseU32 p0 = some v → v ≠ 0 →
      parseU32 p1 = some u → u ≠ 0 →
      parseU32 p2 = some n → n ≠ 0 →
      parseFaceIdx tok = .ok ⟨v - 1, u - 1, n - 1⟩) := by
  refine ⟨?_, rfl, ?_, ?_, ?_⟩
  · intro t0 t1 t2 rest
    unfold parseFace
    cases parseFaceIdx t0 <;> cases parseFaceIdx t1 <;> cases parseFaceIdx t2 <;> rfl
  · intro t0 f0 h
    unfold parseFace
    simp only [h]
  · intro t0 t1 f0 f1 h0 h1
    unfold parseFace
    simp only [h0, h1]
  · intro tok p0 p1 p2 v u n hsplit hv hv0 hu hu0 hn hn0
    unfold parseFaceIdx
    simp only [hsplit, hv, hu, hn, hv0, hu0, hn0, if_neg, ite_false, if_false]

theorem parseFace_spec_witness :
    parseFace [['1', '/', '2', '/', '3'], ['2', '/', '3', '/', '4'],
        ['3', '/', '4', '/', '5'], ['9', '/', '9', '/', '9']] =
      parseFace [['1', '/', '2', '/', '3'], ['2', '/', '3', '/', '4'],
        ['3', '/', '4', '/', '5']] ∧
    parseFace [['1', '/', '1', '/', '1']] = RRes.err .missingFaceVert ∧
    parseFace [['1', '/', '1', '/', '1'], ['2', '/', '2', '/', '2']] =
      RRes.err .missingFaceVert ∧
    parseFaceIdx ['7', '/', '8', '/', '9'] = .ok ⟨6, 7, 8⟩ := by
  obtain ⟨q1, _, q3, q4, q5⟩ := parseFace_spec
  exact ⟨q1 _ _ _ _,
    q3 _ ⟨0, 0, 0⟩ (by decide),
    q4 _ _ ⟨0, 0, 0⟩ ⟨1, 1, 1⟩ (by decide) (by decide),
    q5 _ ['7'] ['8'] ['9'] 7 8 9 (by decide) (by decide) (by decide)
      (by decide) (by decide) (by decide) (by decide)⟩

/-- Claim C7 fails on the code: a face token with fewer than three
`/`-separated components does not produce an `InvalidFace*` error — the
`expect("second element doesn't exist for obj face")` panics.  Parsing
`"f 1 2 3"` crashes instead of returning an error kind. -/
theorem parseFace_missing_slash_counterexample :
    parseFace [['1'], ['2'], ['3']] = RRes.panic := by
  decide

/-- Amended claim C7: malformed inputs are rejected with distinct error
kinds — a line with no token yields `MissingType`, a missing or
non-numeric vertex or texture-coordinate component yields
`MissingVertex`/`NonFloatVertex`/`MissingTexCoord`/`NonFloatTexCoord`, and
a non-numeric face index component (such as `1.1`) yields
`InvalidFaceVert`/`InvalidFaceUv`/`InvalidFaceNorm` — except that a face
token with fewer than three `/`-separated components panics via `expect`
instead of returning an error. -/
theorem objParseError_kinds_spec :
    (∀ line rest vs ts ns fs, splitWs line = [] →
      fromObjLines (line :: rest) vs ts ns fs = RRes.err .missingType) ∧
    (∀ tok p0 rest, tok.splitOn '/' = p0 :: rest → parseU32 p0 = Option.none →
      parseFaceIdx tok = RRes.err .invalidFaceVert) ∧
    (∀ tok p0 p1 rest v, tok.splitOn '/' = p0 :: p1 :: rest →
      parseU32 p0 = some v → v ≠ 0 → parseU32 p1 = Option.none →
      parseFaceIdx tok = RRes.err .invalidFaceUv) ∧
    (∀ tok p0 p1 p2 rest v u, tok.splitOn '/' = p0 :: p1 :: p2 :: rest →
      parseU32 p0 = some v → v ≠ 0 → parseU32 p1 = some u → u ≠ 0 →
      parseU32 p2 = Option.none →
      parseFaceIdx tok = RRes.err .invalidFaceNorm) ∧
    (∀ tok p0 v, tok.splitOn '/' = [p0] → parseU32 p0 = some v → v ≠ 0 →
      parseFaceIdx tok = RRes.panic) ∧
    parseVertex [] = RRes.err .missingVertex ∧
    (∀ t rest, parseF32 t = Option.none →
      parseVertex (t :: rest) = RRes.err .nonFloatVertex) ∧
    parseTexCoord [] = RRes.err .missingTexCoord ∧
    (∀ t rest, parseF32 t = Option.none →
      parseTexCoord (t :: rest) = RRes.err .nonFloatTexCoord) := by
  refine ⟨?_, ?_, ?_, ?_, ?_, rfl, ?_, rfl, ?_⟩
  · intro line rest vs ts ns fs h
    unfold fromObjLines
    rw [h]
  · intro tok p0 rest hsplit hv
    unfold parseFaceIdx
    simp only [hsplit, hv]
  · intro tok p0 p1 rest v hsplit hv hv0 hu
    unfold parseFaceIdx
    simp only [hsplit, hv, hu, hv0, if_neg, ite_false, if_false]
  · intro tok p0 p1 p2 rest v u hsplit hv hv0 hu hu0 hn
    unfold parseFaceIdx
    simp only [hsplit, hv, hu, hn, hv0, hu0, if_neg, ite_false, if_false]
  · intro tok p0 v hsplit hv hv0
    unfold parseFaceIdx
    simp only [hsplit, hv, hv0, if_neg, ite_false, if_false]
  · intro t rest h
    unfold parseVertex parseVertexN
    rw [h]
  · intro t rest h
    unfold parseTexCoord
    simp only [h]

theorem objParseError_kinds_spec_witness :
    fromObjLines [[' ']] [] [] [] [] = RRes.err .missingType ∧
    parseFaceIdx ['1', '.', '1', '/', '1', '/', '1'] = RRes.err .invalidFaceVert ∧
    parseFaceIdx ['1', '/', 'x', '/', '1'] = RRes.err .invalidFaceUv ∧
    parseFaceIdx ['1', '/', '1', '/', 'x'] = RRes.err .invalidFaceNorm ∧
    parseFaceIdx ['1'] = RRes.panic ∧
    parseVertex [['x']] = RRes.err .nonFloatVertex ∧
    parseTexCoord [['x']] = RRes.err .nonFloatTexCoord := by
  obtain ⟨q1, q2, q3, q4, q5, -, q7, -, q9⟩ := objParseError_kinds_spec
  exact ⟨q1 [' '] [] [] [] [] [] (by decide),
    q2 _ ['1', '.', '1'] [['1'], ['1']] (by decide) (by decide),
    q3 _ ['1'] ['x'] [['1']] 1 (by decide) (by decide) (by decide) (by decide),
    q4 _ ['1'] ['1'] ['x'] [] 1 1 (by decide) (by decide) (by decide) (by decide)
      (by decide) (by decide),
    q5 _ ['1'] 1 (by decide) (by decide) (by decide),
    q7 ['x'] [] (by decide),
    q9 ['x'] [] (by decide)⟩

/-- Claim C10 as stated ("returns without panicking only when every face
index component is a well-formed in-range integer") fails: a face line
with a non-numeric first index component returns the
`InvalidFaceVert` error — a normal, panic-free return with a component
that is not a well-formed integer. -/
theorem fromObjFile_malformed_err_counterexample :
    fromObjFile [('f' :: ' ' :: ('a' :: '/' :: '1' :: '/' :: '1' :: ' ' ::
        ('1' :: '/' :: '1' :: '/' :: '1' :: ' ' ::
          ('1' :: '/' :: '1' :: '/' :: '1' :: []))))] =
      RRes.err .invalidFaceVert := by
  decide

lemma mem_firstOccursFrom {x : FaceIndices} :
    ∀ (l seen : List FaceIndices),
      x ∈ firstOccursFrom seen l ↔ (x ∈ l ∧ x ∉ seen) := by
  intro l
  induction l with
  | nil => intro seen; simp [firstOccursFrom]
  | cons y ys ih =>
    intro seen
    unfold firstOccursFrom
    by_cases hy : y ∈ seen
    · rw [if_pos hy, ih seen]
      constructor
      · rintro ⟨h1, h2⟩
        exact ⟨List.mem_cons_of_mem y h1, h2⟩
      · rintro ⟨h1, h2⟩
        rcases List.mem_cons.mp h1 with h1 | h1
        · exact absurd (h1 ▸ hy) h2
        · exact ⟨h1, h2⟩
    · rw [if_neg hy]
      constructor
      · intro h
        rcases List.mem_cons.mp h with h | h
        · exact ⟨h ▸ List.mem_cons_self y ys, h ▸ hy⟩
        · obtain ⟨h1, h2⟩ := (ih (y :: seen)).mp h
          exact ⟨List.mem_cons_of_mem y h1, fun hs => h2 (List.mem_cons_of_mem y hs)⟩
      · rintro ⟨h1, h2⟩
        rcases List.mem_cons.mp h1 with h1 | h1
        · exact h1 ▸ List.mem_cons_self y _
        · by_cases hxy : x = y
          · exact hxy ▸ List.mem_cons_self y _
          · exact List.mem_cons_of_mem y ((ih (y :: seen)).mpr
              ⟨h1, fun hs => (List.mem_cons.mp hs).elim hxy h2⟩)

lemma firstOccursFrom_congr_seen :
    ∀ (l s1 s2 : List FaceIndices), (∀ x, x ∈ s1 ↔ x ∈ s2) →
      firstOccursFrom s1 l = firstOccursFrom s2 l := by
  intro l
  induction l with
  | nil => intro s1 s2 _; rfl
  | cons y ys ih =>
    intro s1 s2 hs
    unfold firstOccursFrom
    by_cases hy : y ∈ s1
    · rw [if_pos hy, if_pos ((hs y).mp hy)]
      exact ih s1 s2 hs
    · rw [if_neg hy, if_neg (fun h => hy ((hs y).mpr h))]
      refine congrArg (List.cons y) (ih _ _ ?_)
      intro x
      simp only [List.mem_cons]
      exact or_congr Iff.rfl (hs x)

lemma firstOccursFrom_cons (seen : List FaceIndices) (y : FaceIndices)
    (ys : List FaceIndices) :
    firstOccursFrom seen (y :: ys) =
      if y ∈ seen then firstOccursFrom seen ys
      else y :: firstOccursFrom (y :: seen) ys := rfl

lemma firstOccursFrom_append :
    ∀ (P : List FaceIndices) (seen Q : List FaceIndices),
      firstOccursFrom seen (P ++ Q) =
        firstOccursFrom seen P ++ firstOccursFrom (P ++ seen) Q := by
  intro P
  induction P with
  | nil => intro seen Q; rfl
  | cons y P ih =>
    intro seen Q
    rw [List.cons_append, firstOccursFrom_cons seen y (P ++ Q),
      firstOccursFrom_cons seen y P]
    by_cases hy : y ∈ seen
    · rw [if_pos hy, if_pos hy, ih seen Q]
      refine congrArg (firstOccursFrom seen P ++ ·)
        (firstOccursFrom_congr_seen Q (P ++ seen) (y :: (P ++ seen)) ?_)
      intro x
      constructor
      · intro h
        exact List.mem_cons_of_mem y h
      · intro h
        rcases List.mem_cons.mp h with h | h
        · exact h ▸ List.mem_append.mpr (Or.inr hy)
        · exact h
    · rw [if_neg hy, if_neg hy, ih (y :: seen) Q, List.cons_append]
      refine congrArg (fun t => y :: (firstOccursFrom (y :: seen) P ++ t))
        (firstOccursFrom_congr_seen Q (P ++ y :: seen) (y :: (P ++ seen)) ?_)
      intro x
      simp only [List.mem_append, List.mem_cons]
      tauto

lemma firstOccurs_append (P Q : List FaceIndices) :
    firstOccurs (P ++ Q) = firstOccurs P ++ firstOccursFrom P Q := by
  unfold firstOccurs
  rw [firstOccursFrom_append P [] Q, List.append_nil]

lemma firstOccurs_snoc_mem {P : List FaceIndices} {x : FaceIndices} (h : x ∈ P) :
    firstOccurs (P ++ [x]) = firstOccurs P := by
  rw [firstOccurs_append]
  unfold firstOccursFrom
  rw [if_pos h]
  simp [firstOccursFrom]

lemma firstOccurs_snoc_not_mem {P : List FaceIndices} {x : FaceIndices} (h : x ∉ P) :
    firstOccurs (P ++ [x]) = firstOccurs P ++ [x] := by
  rw [firstOccurs_append]
  unfold firstOccursFrom
  rw [if_neg h]
  rfl

lemma mem_firstOccurs {x : FaceIndices} {l : List FaceIndices} :
    x ∈ firstOccurs l ↔ x ∈ l := by
  unfold firstOccurs
  rw [mem_firstOccursFrom]
  simp

lemma findIdx?_some_getElem? {l : List FaceIndices} {p : FaceIndices → Bool} {i : Nat}
    (h : List.findIdx? p l = some i) : ∃ x, l[i]? = some x ∧ p x = true := by
  rw [List.findIdx?_eq_some_iff_findIdx_eq] at h
  obtain ⟨hlt, hfi⟩ := h
  subst hfi
  exact ⟨l[List.findIdx p l], by simp [List.getElem?_eq_getElem hlt], List.findIdx_getElem⟩

lemma findIdx?_self_of_mem {l : List FaceIndices} {x : FaceIndices} (h : x ∈ l) :
    List.findIdx? (fun g => g = x) l ≠ Option.none := by
  intro hn
  rw [List.findIdx?_eq_none_iff] at hn
  simpa using hn x h

lemma findIdx?_append_some {l q : List FaceIndices} {p : FaceIndices → Bool} {i : Nat}
    (h : List.findIdx? p l = some i) : List.findIdx? p (l ++ q) = some i := by
  rw [List.findIdx?_append, h, Option.or_some]

lemma findIdx?_append_none {l q : List FaceIndices} {p : FaceIndices → Bool}
    (h : List.findIdx? p l = Option.none) :
    List.findIdx? p (l ++ q) = (List.findIdx? p q).map (· + l.length) := by
  rw [List.findIdx?_append, h]
  rfl

lemma mem_of_getElem?_some {l : List FaceIndices} {i : Nat} {a : FaceIndices}
    (h : l[i]? = some a) : a ∈ l := by
  rw [List.getElem?_eq_some] at h
  obtain ⟨hlt, rfl⟩ := h
  exact List.getElem_mem hlt

lemma processVert_step (vs uvs ns : List (List Rat)) (P : List FaceIndices)
    (mapping : List (FaceIndices × Nat)) (ov : List VertData) (fi : FaceIndices)
    (hA : ov = (firstOccurs P).map (mkVert vs uvs ns))
    (hB : ∀ g, lookupFI mapping g = List.findIdx? (fun x => x = g) (firstOccurs P))
    {m2 : List (FaceIndices × Nat)} {ov2 : List VertData} {idx : Nat}
    (h : processVert vs uvs ns mapping ov fi = some (m2, ov2, idx)) :
    ov2 = (firstOccurs (P ++ [fi])).map (mkVert vs uvs ns) ∧
    (∀ g, lookupFI m2 g = List.findIdx? (fun x => x = g) (firstOccurs (P ++ [fi]))) ∧
    List.findIdx? (fun x => x = fi) (firstOccurs (P ++ [fi])) = some idx := by
  unfold processVert at h
  cases hl : lookupFI mapping fi with
  | some i =>
    simp only [hl, Option.some.injEq, Prod.mk.injEq] at h
    obtain ⟨h1, h2, h3⟩ := h
    subst h1
    subst h2
    subst h3
    have hfi : fi ∈ firstOccurs P := by
      have hx := (hB fi).symm.trans hl
      obtain ⟨x, hx2, hpx⟩ := findIdx?_some_getElem? hx
      have : x = fi := by simpa using hpx
      exact this ▸ mem_of_getElem?_some hx2
    have hmem : fi ∈ P := mem_firstOccurs.mp hfi
    rw [firstOccurs_snoc_mem hmem]
    exact ⟨hA, hB, (hB fi).symm.trans hl⟩
  | none =>
    simp only [hl] at h
    cases hv : vs[fi.vert]? with
    | none => simp [hv] at h
    | some v =>
      cases hu : uvs[fi.uv]? with
      | none => simp [hv, hu] at h
      | some u =>
        cases hn : ns[fi.norm]? with
        | none => simp [hv, hu, hn] at h
        | some n =>
          simp only [hv, hu, hn, Option.some.injEq, Prod.mk.injEq] at h
          obtain ⟨h1, h2, h3⟩ := h
          subst h1
          subst h2
          subst h3
          have hnone : List.findIdx? (fun x => x = fi) (firstOccurs P) = Option.none :=
            (hB fi).symm.trans hl
          have hnotmem : fi ∉ P := by
            intro hm
            exact findIdx?_self_of_mem (mem_firstOccurs.mpr hm) hnone
          rw [firstOccurs_snoc_not_mem hnotmem]
          have hlen : ov.length = (firstOccurs P).length := by
            rw [hA, List.length_map]
          have hfind : List.findIdx? (fun x => x = fi) (firstOccurs P ++ [fi]) =
              some ov.length := by
            rw [findIdx?_append_none hnone]
            simp [List.findIdx?_cons, hlen]
          refine ⟨?_, ?_, hfind⟩
          · rw [List.map_append, ← hA]
            refine congrArg (ov ++ ·) ?_
            have hmk : mkVert vs uvs ns fi = ⟨v, u, n⟩ := by
              unfold mkVert
              rw [List.getD_eq_getElem?_getD, List.getD_eq_getElem?_getD,
                List.getD_eq_getElem?_getD, hv, hu, hn]
              rfl
            rw [List.map_cons, List.map_nil, hmk]
          · intro g
            show (if fi = g then some ov.length else lookupFI mapping g) = _
            by_cases hg : fi = g
            · subst hg
              rw [if_pos rfl, hfind]
            · rw [if_neg hg, hB g]
              cases hfg : List.findIdx? (fun x => x = g) (firstOccurs P) with
              | some j => rw [findIdx?_append_some hfg]
              | none =>
                rw [findIdx?_append_none hfg]
                have : List.findIdx? (fun x => x = g) [fi] = Option.none := by
                  simp [List.findIdx?_cons, hg]
                rw [this]
                rfl

lemma findIdx?_firstOccurs_prefix {A B : List FaceIndices} {p : FaceIndices → Bool}
    {i : Nat} (h : List.findIdx? p (firstOccurs A) = some i) :
    List.findIdx? p (firstOccurs (A ++ B)) = some i := by
  rw [firstOccurs_append]
  exact findIdx?_append_some h

lemma processFaces_invariant (vs uvs ns : List (List Rat)) :
    ∀ (rest : List (FaceIndices × FaceIndices × FaceIndices)) (P : List FaceIndices)
      (mapping : List (FaceIndices × Nat)) (ov : List VertData)
      (ofs : List (Nat × Nat × Nat)) (ovF : List VertData) (ofsF : List (Nat × Nat × Nat)),
      ov = (firstOccurs P).map (mkVert vs uvs ns) →
      (∀ g, lookupFI mapping g = List.findIdx? (fun x => x = g) (firstOccurs P)) →
      processFaces vs uvs ns rest mapping ov ofs = some (ovF, ofsF) →
      ovF = (firstOccurs (P ++ facesTriples rest)).map (mkVert vs uvs ns) ∧
      ofsF.length = ofs.length + rest.length ∧
      (∀ k, k < ofs.length → ofsF[k]? = ofs[k]?) ∧
      (∀ k g0 g1 g2, rest[k]? = some (g0, g1, g2) →
        ∃ i0 i1 i2,
          ofsF[ofs.length + k]? = some (i0, i1, i2) ∧
          List.findIdx? (fun x => x = g0) (firstOccurs (P ++ facesTriples rest)) = some i0 ∧
          List.findIdx? (fun x => x = g1) (firstOccurs (P ++ facesTriples rest)) = some i1 ∧
          List.findIdx? (fun x => x = g2) (firstOccurs (P ++ facesTriples rest)) = some i2) := by
  intro rest
  induction rest with
  | nil =>
    intro P mapping ov ofs ovF ofsF hA hB h
    unfold processFaces at h
    simp only [Option.some.injEq, Prod.mk.injEq] at h
    obtain ⟨h1, h2⟩ := h
    subst h1
    subst h2
    refine ⟨by simpa [facesTriples] using hA, by simp, fun k _ => rfl, ?_⟩
    intro k g0 g1 g2 hk
    simp at hk
  | cons face rs ih =>
    intro P mapping ov ofs ovF ofsF hA hB h
    obtain ⟨f0, f1, f2⟩ := face
    unfold processFaces at h
    cases hp0 : processVert vs uvs ns mapping ov f0 with
    | none => simp [hp0] at h
    | some t0 =>
      obtain ⟨m0, ov0, i0⟩ := t0
      obtain ⟨hA0, hB0, hI0⟩ := processVert_step vs uvs ns P mapping ov f0 hA hB hp0
      simp only [hp0] at h
      cases hp1 : processVert vs uvs ns m0 ov0 f1 with
      | none => simp [hp1] at h
      | some t1 =>
        obtain ⟨m1, ov1, i1⟩ := t1
        obtain ⟨hA1, hB1, hI1⟩ :=
          processVert_step vs uvs ns (P ++ [f0]) m0 ov0 f1 hA0 hB0 hp1
        simp only [hp1] at h
        cases hp2 : processVert vs uvs ns m1 ov1 f2 with
        | none => simp [hp2] at h
        | some t2 =>
          obtain ⟨m2, ov2, i2⟩ := t2
          obtain ⟨hA2, hB2, hI2⟩ :=
            processVert_step vs uvs ns (P ++ [f0] ++ [f1]) m1 ov1 f2 hA1 hB1 hp2
          simp only [hp2] at h
          obtain ⟨ihA, ihLen, ihStab, ihFace⟩ :=
            ih (P ++ [f0] ++ [f1] ++ [f2]) m2 ov2 (ofs ++ [(i0, i1, i2)]) ovF ofsF
              hA2 hB2 h
          have hPT : P ++ [f0] ++ [f1] ++ [f2] ++ facesTriples rs =
              P ++ facesTriples ((f0, f1, f2) :: rs) := by
            simp [facesTriples]
          have hlen1 : (ofs ++ [(i0, i1, i2)]).length = ofs.length + 1 := by simp
          refine ⟨?_, ?_, ?_, ?_⟩
          · rw [← hPT]
            exact ihA
          · rw [ihLen, hlen1]
            simp only [List.length_cons]
            omega
          · intro k hk
            have hk2 : k < (ofs ++ [(i0, i1, i2)]).length := by rw [hlen1]; omega
            rw [ihStab k hk2]
            exact List.getElem?_append_left hk
          · intro k g0 g1 g2 hk
            cases k with
            | zero =>
              simp only [List.getElem?_cons_zero, Option.some.injEq, Prod.mk.injEq] at hk
              obtain ⟨hk0, hk1, hk2⟩ := hk
              subst hk0
              subst hk1
              subst hk2
              refine ⟨i0, i1, i2, ?_, ?_, ?_, ?_⟩
              · rw [Nat.add_zero, ihStab ofs.length (by rw [hlen1]; omega)]
                exact List.getElem?_concat_length ofs (i0, i1, i2)
              · have hx := findIdx?_firstOccurs_prefix
                  (B := [f1] ++ [f2] ++ facesTriples rs) hI0
                rw [show P ++ [f0] ++ ([f1] ++ [f2] ++ facesTriples rs) =
                    P ++ facesTriples ((f0, f1, f2) :: rs) from by simp [facesTriples]] at hx
                exact hx
              · have hx := findIdx?_firstOccurs_prefix
                  (B := [f2] ++ facesTriples rs) hI1
                rw [show P ++ [f0] ++ [f1] ++ ([f2] ++ facesTriples rs) =
                    P ++ facesTriples ((f0, f1, f2) :: rs) from by simp [facesTriples]] at hx
                exact hx
              · have hx := findIdx?_firstOccurs_prefix (B := facesTriples rs) hI2
                rw [show P ++ [f0] ++ [f1] ++ [f2] ++ facesTriples rs =
                    P ++ facesTriples ((f0, f1, f2) :: rs) from by simp [facesTriples]] at hx
                exact hx
            | succ k2 =>
              simp only [List.getElem?_cons_succ] at hk
              obtain ⟨j0, j1, j2, hof, h0, h1, h2⟩ := ihFace k2 g0 g1 g2 hk
              rw [hlen1] at hof
              rw [hPT] at h0 h1 h2
              refine ⟨j0, j1, j2, ?_, h0, h1, h2⟩
              rw [show ofs.length + (k2 + 1) = ofs.length + 1 + k2 from by omega]
              exact hof

/-- Claim C8: for every face list whose indices are all in range (so that
`obj_data_to_mesh` returns a mesh rather than panicking), the mesh has
exactly one merged vertex per distinct (position, uv, normal) index triple,
in order of first occurrence, each carrying the source data selected by its
triple; and every output face entry is the merged index of its triple,
pointing at the merged vertex whose data matches. -/
theorem objDataToMesh_dedup (vs uvs ns : List (List Rat))
    (faces : List (FaceIndices × FaceIndices × FaceIndices)) (m : Mesh)
    (h : objDataToMesh vs uvs ns faces = some m) :
    m.vertices = (firstOccurs (facesTriples faces)).map (mkVert vs uvs ns) ∧
    m.faces.length = faces.length ∧
    (∀ (k : Nat) f0 f1 f2, faces[k]? = some (f0, f1, f2) →
      m.faces[k]? = some (mergedIdx faces f0, mergedIdx faces f1, mergedIdx faces f2)) ∧
    (∀ (k : Nat) f0 f1 f2, faces[k]? = some (f0, f1, f2) →
      m.vertices[mergedIdx faces f0]? = some (mkVert vs uvs ns f0) ∧
      m.vertices[mergedIdx faces f1]? = some (mkVert vs uvs ns f1) ∧
      m.vertices[mergedIdx faces f2]? = some (mkVert vs uvs ns f2)) := by
  unfold objDataToMesh at h
  rw [Option.map_eq_some'] at h
  obtain ⟨p, hp, hm⟩ := h
  obtain ⟨ovF, ofsF⟩ := p
  obtain ⟨iA, iLen, -, iFace⟩ :=
    processFaces_invariant vs uvs ns faces [] [] [] [] ovF ofsF rfl (fun _ => rfl) hp
  rw [List.nil_append] at iA
  subst hm
  have hverts : (Mesh.mk ovF ofsF).vertices = ovF := rfl
  have hfaces : (Mesh.mk ovF ofsF).faces = ofsF := rfl
  have hIdx : ∀ (g : FaceIndices) (i : Nat),
      List.findIdx? (fun x => x = g) (firstOccurs (facesTriples faces)) = some i →
      mergedIdx faces g = i := by
    intro g i hg
    unfold mergedIdx
    rw [hg]
    rfl
  refine ⟨iA, by simpa using iLen, ?_, ?_⟩
  · intro k f0 f1 f2 hk
    obtain ⟨i0, i1, i2, hof, h0, h1, h2⟩ := iFace k f0 f1 f2 hk
    rw [List.nil_append] at h0 h1 h2
    rw [hfaces, hIdx f0 i0 h0, hIdx f1 i1 h1, hIdx f2 i2 h2]
    simpa using hof
  · intro k f0 f1 f2 hk
    obtain ⟨i0, i1, i2, -, h0, h1, h2⟩ := iFace k f0 f1 f2 hk
    rw [List.nil_append] at h0 h1 h2
    have hget : ∀ (g : FaceIndices) (i : Nat),
        List.findIdx? (fun x => x = g) (firstOccurs (facesTriples faces)) = some i →
        (Mesh.mk ovF ofsF).vertices[mergedIdx faces g]? = some (mkVert vs uvs ns g) := by
      intro g i hg
      obtain ⟨x, hx, hpx⟩ := findIdx?_some_getElem? hg
      have hxg : x = g := by simpa using hpx
      rw [hverts, iA, hIdx g i hg, List.getElem?_map, hx, hxg]
      rfl
    exact ⟨hget f0 i0 h0, hget f1 i1 h1, hget f2 i2 h2⟩

theorem objDataToMesh_dedup_witness :
    (⟨[⟨[1], [5], [7]⟩, ⟨[2], [5], [7]⟩], [(0, 1, 0)]⟩ : Mesh).vertices =
      (firstOccurs (facesTriples
          [((⟨0, 0, 0⟩ : FaceIndices), (⟨1, 0, 0⟩ : FaceIndices),
            (⟨0, 0, 0⟩ : FaceIndices))])).map
        (mkVert [[(1 : Rat)], [2]] [[5]] [[7]]) ∧
    (⟨[⟨[1], [5], [7]⟩, ⟨[2], [5], [7]⟩], [(0, 1, 0)]⟩ : Mesh).faces.length =
      [((⟨0, 0, 0⟩ : FaceIndices), (⟨1, 0, 0⟩ : FaceIndices),
        (⟨0, 0, 0⟩ : FaceIndices))].length ∧
    (∀ (k : Nat) f0 f1 f2,
      [((⟨0, 0, 0⟩ : FaceIndices), (⟨1, 0, 0⟩ : FaceIndices),
        (⟨0, 0, 0⟩ : FaceIndices))][k]? = some (f0, f1, f2) →
      (⟨[⟨[1], [5], [7]⟩, ⟨[2], [5], [7]⟩], [(0, 1, 0)]⟩ : Mesh).faces[k]? =
        some (mergedIdx [(⟨0, 0, 0⟩, ⟨1, 0, 0⟩, ⟨0, 0, 0⟩)] f0,
          mergedIdx [(⟨0, 0, 0⟩, ⟨1, 0, 0⟩, ⟨0, 0, 0⟩)] f1,
          mergedIdx [(⟨0, 0, 0⟩, ⟨1, 0, 0⟩, ⟨0, 0, 0⟩)] f2)) ∧
    (∀ (k : Nat) f0 f1 f2,
      [((⟨0, 0, 0⟩ : FaceIndices), (⟨1, 0, 0⟩ : FaceIndices),
        (⟨0, 0, 0⟩ : FaceIndices))][k]? = some (f0, f1, f2) →
      (⟨[⟨[1], [5], [7]⟩, ⟨[2], [5], [7]⟩], [(0, 1, 0)]⟩ : Mesh).vertices[
          mergedIdx [(⟨0, 0, 0⟩, ⟨1, 0, 0⟩, ⟨0, 0, 0⟩)] f0]? =
        some (mkVert [[(1 : Rat)], [2]] [[5]] [[7]] f0) ∧
      (⟨[⟨[1], [5], [7]⟩, ⟨[2], [5], [7]⟩], [(0, 1, 0)]⟩ : Mesh).vertices[
          mergedIdx [(⟨0, 0, 0⟩, ⟨1, 0, 0⟩, ⟨0, 0, 0⟩)] f1]? =
        some (mkVert [[(1 : Rat)], [2]] [[5]] [[7]] f1) ∧
      (⟨[⟨[1], [5], [7]⟩, ⟨[2], [5], [7]⟩], [(0, 1, 0)]⟩ : Mesh).vertices[
          mergedIdx [(⟨0, 0, 0⟩, ⟨1, 0, 0⟩, ⟨0, 0, 0⟩)] f2]? =
        some (mkVert [[(1 : Rat)], [2]] [[5]] [[7]] f2)) :=
  objDataToMesh_dedup [[(1 : Rat)], [2]] [[5]] [[7]]
    [(⟨0, 0, 0⟩, ⟨1, 0, 0⟩, ⟨0, 0, 0⟩)]
    ⟨[⟨[1], [5], [7]⟩, ⟨[2], [5], [7]⟩], [(0, 1, 0)]⟩ (by decide)

/-- Amended claim C10: for syntactically face-shaped inputs,
`Mesh::from_obj_file` panics instead of returning an error when a face
index component is `0` (the `- 1u32` underflows) or when a well-formed
index exceeds the number of corresponding `v`/`vt`/`vn` entries (the
slice indexing in `obj_data_to_mesh` goes out of bounds); fully in-range
inputs return `Ok`, and malformed components return errors. -/
theorem fromObjFile_bad_index_panics :
    fromObjFile ["v 0 0 0".toList, "vt 0 0".toList, "vn 0 0 1".toList,
        "f 0/1/1 1/1/1 1/1/1".toList] = RRes.panic ∧
    fromObjFile ["v 0 0 0".toList, "vt 0 0".toList, "vn 0 0 1".toList,
        "f 2/1/1 2/1/1 2/1/1".toList] = RRes.panic ∧
    fromObjFile ["v 0 0 0".toList, "vt 0 0".toList, "vn 0 0 1".toList,
        "f 1/1/1 1/1/1 1/1/1".toList] =
      RRes.ok ⟨[⟨[0, 0, 0, 1], [0, 0], [0, 0, 1]⟩], [(0, 0, 0)]⟩ := by
  refine ⟨by decide, by decide, by decide⟩

lemma renderGo_isSome (r : GlyphRenderer) (x y : Real) :
    ∀ (s : List Char),
      (∀ c ∈ s, c ≠ '\n' →
        x + ((r.cache c).left : Real) * r.scale + ((r.cache c).width : Real) * r.scale ≤ 1) →
      ∀ (advance advanceY : Real) (fuel : Nat), 2 * s.length + 1 ≤ fuel →
        (renderGo r s x y advance advanceY fuel).isSome := by
  intro s
  induction s with
  | nil =>
    intro _ adv advY fuel hf
    cases fuel with
    | zero => omega
    | succ f => simp [renderGo]
  | cons c rest ih =>
    intro hfit adv advY fuel hf
    have hfitRest : ∀ c2 ∈ rest, c2 ≠ '\n' →
        x + ((r.cache c2).left : Real) * r.scale + ((r.cache c2).width : Real) * r.scale ≤ 1 :=
      fun c2 hc2 => hfit c2 (List.mem_cons_of_mem c hc2)
    cases fuel with
    | zero => omega
    | succ f =>
      unfold renderGo
      cases hrc : r.renderChar c (x + adv) (y + advY) with
      | vert v =>
        exact ih hfitRest 0 (advY + v) f (by simp at hf; omega)
      | horiz v =>
        exact ih hfitRest (adv + v) advY f (by simp at hf; omega)
      | «repeat» v =>
        show (renderGo r (c :: rest) x y 0 (advY + v) f).isSome = true
        have hc : c ≠ '\n' := by
          intro hcn
          subst hcn
          unfold GlyphRenderer.renderChar at hrc
          rw [if_pos rfl] at hrc
          exact CursorMovement.noConfusion hrc
        have hfit0 := hfit c (List.mem_cons_self c rest) hc
        cases f with
        | zero => simp at hf
        | succ f2 =>
          have hrc2 : r.renderChar c (x + 0) (y + (advY + v)) =
              .horiz (((r.cache c).advance_x : Real) / 64 * r.scale) := by
            unfold GlyphRenderer.renderChar
            rw [if_neg hc, if_neg (not_lt.mpr (by linarith))]
          unfold renderGo
          rw [hrc2]
          exact ih hfitRest (0 + ((r.cache c).advance_x : Real) / 64 * r.scale)
            (advY + v) f2 (by simp at hf; omega)

/-- Claim C9: `render_str` terminates whenever every non-newline character
of the string fits within the screen width from the line origin: the wrap
retries the same character at horizontal advance 0 and, because it then
fits, the retry draws it and consumes it, so each character costs at most
two loop iterations and fuel `2·len + 1` always suffices. -/
theorem renderStr_terminates (r : GlyphRenderer) (s : List Char) (x y : Real)
    (hfit : ∀ c ∈ s, c ≠ '\n' →
      x + ((r.cache c).left : Real) * r.scale + ((r.cache c).width : Real) * r.scale ≤ 1) :
    (r.renderStr s x y (2 * s.length + 1)).isSome :=
  renderGo_isSome r x y s hfit 0 0 (2 * s.length + 1) le_rfl

theorem renderStr_terminates_witness :
    (GlyphRenderer.renderStr ⟨fun _ => ⟨0, 0, 0, 0, 0⟩, 256⟩ ['h', 'i'] 0 0 5).isSome :=
  renderStr_terminates ⟨fun _ => ⟨0, 0, 0, 0, 0⟩, 256⟩ ['h', 'i'] 0 0
    (by
      intro c _ _
      show (0 : Real) + ((0 : Int) : Real) * _ + ((0 : Int) : Real) * _ ≤ 1
      norm_num)
